import Mathlib

/-!
Verification of onionwrap (Yawning/onionwrap, Go).

This file shallowly embeds the pure fragments of `main.go` and `inetd.go`:
the port-specification parser (`parsePort`, `parsePortArg`), the key codec
(`loadPrivateKey`, `savePrivateKey` together with the standard base64
codec they use), the subprocess argument rewriting loop, the ADD_ONION
response scanning loop, and discrete-event models of the signal-escalation
supervisor and of the inetd accept loop / connection handler.

Conventions: Go byte slices are `List Nat` with entries `< 256`; Go strings
are Lean `String`s manipulated through their `data : List Char`; fallible
Go functions returning `(T, error)` become `Option T`; the environmental
`net.ResolveTCPAddr` call is a function parameter constrained only by the
deterministic part of its contract.
-/

namespace Onionwrap

/-- Constant `localhost` from main.go line 36. -/
def localhost : String := "127.0.0.1"

/-- Model of Go `strings.SplitN (s, sep, 2)` for a one-character separator:
`some (before, after)` splits at the first occurrence of `sep`, `none`
means no occurrence (Go would return the one-element slice `[s]`). -/
def splitFirst (sep : Char) : List Char → Option (List Char × List Char)
  | [] => none
  | c :: rest =>
    if c = sep then some ([], rest)
    else (splitFirst sep rest).map (fun p => (c :: p.1, p.2))

/-- Model of Go `strconv.ParseUint (s, 10, 16)` (main.go line 68): the
input must be nonempty and all ASCII decimal digits, and the value must
fit in 16 bits; otherwise an error (`none`). -/
def parseUint16 (s : String) : Option Nat :=
  if s.data = [] then none
  else if s.data.all (fun c => c.isDigit) then
    if s.data.foldl (fun acc c => acc * 10 + (c.toNat - 48)) 0 < 65536 then
      some (s.data.foldl (fun acc c => acc * 10 + (c.toNat - 48)) 0)
    else none
  else none

/-- `parsePort` from main.go lines 67-76: a decimal port in `[1, 65535]`;
the value `0` is rejected after a successful `ParseUint`. -/
def parsePort (s : String) : Option Nat :=
  match parseUint16 s with
  | none => none
  | some p => if p = 0 then none else some p

/-- Model of the tail of `parsePortArg` (main.go lines 111-119): the
`TARGET` is handed to `net.ResolveTCPAddr`, abstracted here as the
function parameter `resolve` returning the resolved port (`none` on
resolution error).  A resolved port of `0` is rejected; otherwise the
returned `targetPort` is `strconv.Itoa` of the resolved port and `target`
is returned unchanged. -/
def resolveTarget (resolve : String → Option Nat) (virtPort target : String) :
    Option (String × String × String) :=
  match resolve target with
  | none => none
  | some p => if p = 0 then none else some (virtPort, toString p, target)

/-- The deterministic fragment of the `net.ResolveTCPAddr` contract that
the proofs rely on: an address containing no colon has no port component,
so `net.SplitHostPort` (and hence the resolution) fails on it with
"missing port in address". -/
def goodResolver (resolve : String → Option Nat) : Prop :=
  ∀ s : String, (∀ c ∈ s.data, c ≠ ':') → resolve s = none

/-- `parsePortArg` from main.go lines 78-120.  Input `VIRTPORT[,TARGET]`;
output `(virtPort, targetPort, target)` with `targetPort = ""` exactly
when the target is an AF_UNIX socket path (Go uses the empty string for
the absent port).  The environmental DNS/host resolution is the `resolve`
parameter; everything else is translated from the source. -/
def parsePortArg (resolve : String → Option Nat) (arg : String) :
    Option (String × String × String) :=
  if arg = "" then none
  else
    match splitFirst ',' arg.data with
    | none =>
      -- only a VIRTPORT was provided, mirror it onto the target
      match parsePort arg with
      | none => none
      | some _ => some (arg, arg, localhost ++ ":" ++ arg)
    | some (vp, tg) =>
      match parsePort ⟨vp⟩ with
      | none => none
      | some _ =>
        match parsePort ⟨tg⟩ with
        | some _ => some (⟨vp⟩, ⟨tg⟩, localhost ++ ":" ++ ⟨tg⟩)
        | none =>
          if "unix:".data.isPrefixOf tg then
            some (⟨vp⟩, "", ⟨tg.drop "unix:".data.length⟩)
          else
            resolveTarget resolve ⟨vp⟩ ⟨tg⟩

section PortParserLemmas

theorem splitFirst_eq_none {sep : Char} {l : List Char}
    (h : ∀ c ∈ l, c ≠ sep) : splitFirst sep l = none := by
  induction l with
  | nil => rfl
  | cons c rest ih =>
    simp only [splitFirst]
    rw [if_neg (h c (List.mem_cons_self c rest))]
    rw [ih (fun x hx => h x (List.mem_cons_of_mem c hx))]
    rfl

theorem splitFirst_append {sep : Char} {l₁ : List Char} (l₂ : List Char)
    (h : ∀ c ∈ l₁, c ≠ sep) :
    splitFirst sep (l₁ ++ sep :: l₂) = some (l₁, l₂) := by
  induction l₁ with
  | nil => simp [splitFirst]
  | cons c rest ih =>
    simp only [List.cons_append, splitFirst, List.append_eq]
    rw [if_neg (h c (List.mem_cons_self c rest))]
    rw [ih (fun x hx => h x (List.mem_cons_of_mem c hx))]
    rfl

theorem parseUint16_conditions {s : String} {p : Nat}
    (h : parseUint16 s = some p) :
    s.data ≠ [] ∧ s.data.all (fun c => c.isDigit) = true ∧ p < 65536 := by
  unfold parseUint16 at h
  split at h
  · exact absurd h (by simp)
  · split at h
    · split at h
      · exact ⟨by assumption, by assumption, by simp_all⟩
      · exact absurd h (by simp)
    · exact absurd h (by simp)

theorem parsePort_some {s : String} {p : Nat} (h : parsePort s = some p) :
    parseUint16 s = some p ∧ p ≠ 0 := by
  unfold parsePort at h
  split at h
  · exact absurd h (by simp)
  · split at h
    · exact absurd h (by simp)
    · simp_all

theorem parsePort_digits {s : String} {p : Nat} (h : parsePort s = some p) :
    ∀ c ∈ s.data, c.isDigit = true := by
  have h1 := (parseUint16_conditions (parsePort_some h).1).2.1
  intro c hc
  exact List.all_eq_true.mp h1 c hc

theorem parsePort_nonempty {s : String} {p : Nat} (h : parsePort s = some p) :
    s ≠ "" := by
  have h1 := (parseUint16_conditions (parsePort_some h).1).1
  intro he
  exact h1 (by rw [he])

theorem parsePort_no_comma {s : String} {p : Nat} (h : parsePort s = some p) :
    ∀ c ∈ s.data, c ≠ ',' := by
  intro c hc he
  have := parsePort_digits h c hc
  rw [he] at this
  exact absurd this (by decide)

end PortParserLemmas

/-- C5.  Port parser, omitted target: for every input string that is a
single decimal VPORT in `[1,65535]` with no comma-separated target,
parsing succeeds and yields `target = "127.0.0.1:VPORT"` and
`targetPort = VPORT` (the virtual port is mirrored onto the target). -/
theorem c5_omitted_target_mirrors (resolve : String → Option Nat)
    (s : String) (p : Nat) (h : parsePort s = some p) :
    parsePortArg resolve s = some (s, s, "127.0.0.1:" ++ s) ∧
    1 ≤ p ∧ p ≤ 65535 := by
  have hs : s ≠ "" := parsePort_nonempty h
  have hsplit : splitFirst ',' s.data = none :=
    splitFirst_eq_none (parsePort_no_comma h)
  have hrange := (parseUint16_conditions (parsePort_some h).1).2.2
  have hne := (parsePort_some h).2
  refine ⟨?_, by omega, by omega⟩
  unfold parsePortArg
  rw [if_neg hs, hsplit, h]
  rfl

/-- Closed witness for C5 at the concrete input `"80"`. -/
theorem c5_omitted_target_mirrors_witness :
    parsePortArg (fun _ => none) "80" = some ("80", "80", "127.0.0.1:" ++ "80") ∧
    parsePort "80" = some 80 :=
  ⟨(c5_omitted_target_mirrors (fun _ => none) "80" 80 (by decide)).1, by decide⟩

theorem data_mk (l : List Char) : (String.mk l).data = l := rfl

theorem string_data_append (a b : String) : (a ++ b).data = a.data ++ b.data := rfl

theorem parsePortArg_split {resolve : String → Option Nat} {arg : String}
    {vp tg : List Char} (hsp : splitFirst ',' arg.data = some (vp, tg)) :
    parsePortArg resolve arg =
      match parsePort ⟨vp⟩ with
      | none => none
      | some _ =>
        match parsePort ⟨tg⟩ with
        | some _ => some (⟨vp⟩, ⟨tg⟩, localhost ++ ":" ++ ⟨tg⟩)
        | none =>
          if "unix:".data.isPrefixOf tg then
            some (⟨vp⟩, "", ⟨tg.drop "unix:".data.length⟩)
          else resolveTarget resolve ⟨vp⟩ ⟨tg⟩ := by
  have hne : arg ≠ "" := by
    intro he
    subst he
    have h0 : splitFirst ',' ("" : String).data = none := rfl
    rw [h0] at hsp
    exact Option.noConfusion hsp
  unfold parsePortArg
  rw [if_neg hne, hsp]

/-- C6.  Port parser, zero ports rejected: `"0,80"` fails (virtual port 0
is invalid) and `"80,0"` fails (the target `"0"` is not a valid naked port
and, lacking a colon, cannot resolve as a host:port address); in general a
VPORT that does not parse as a port in `[1,65535]` (zero or non-numeric)
fails, and a target that reaches address resolution and resolves with port
`0` fails. -/
theorem c6_zero_ports_rejected (resolve : String → Option Nat)
    (hres : goodResolver resolve) :
    parsePortArg resolve "0,80" = none ∧
    parsePortArg resolve "80,0" = none ∧
    (∀ (arg : String) (vp tg : List Char), splitFirst ',' arg.data = some (vp, tg) →
      parsePort ⟨vp⟩ = none → parsePortArg resolve arg = none) ∧
    (∀ arg : String, splitFirst ',' arg.data = none → parsePort arg = none →
      parsePortArg resolve arg = none) ∧
    (∀ (resolve2 : String → Option Nat) (arg : String) (vp tg : List Char),
      splitFirst ',' arg.data = some (vp, tg) →
      parsePort ⟨tg⟩ = none →
      "unix:".data.isPrefixOf tg = false →
      resolve2 ⟨tg⟩ = some 0 →
      parsePortArg resolve2 arg = none) := by
  refine ⟨rfl, ?_, ?_, ?_, ?_⟩
  · have h0 : resolve "0" = none := hres "0" (by decide)
    show resolveTarget resolve "80" "0" = none
    unfold resolveTarget
    rw [h0]
  · intro arg vp tg hsp hvp
    rw [parsePortArg_split hsp, hvp]
  · intro arg hsp hvp
    unfold parsePortArg
    by_cases he : arg = ""
    · rw [if_pos he]
    · rw [if_neg he, hsp, hvp]
  · intro resolve2 arg vp tg hsp htg hux hres2
    rw [parsePortArg_split hsp]
    cases hvp : parsePort ⟨vp⟩ with
    | none => rfl
    | some p =>
      have : resolveTarget resolve2 ⟨vp⟩ ⟨tg⟩ = none := by
        unfold resolveTarget
        rw [hres2]
        rfl
      simp only [htg, hux, Bool.false_eq_true, if_false, this]

/-- Closed witness for C6, with the trivial resolver that refuses every
address (which satisfies `goodResolver`). -/
theorem c6_zero_ports_rejected_witness :
    parsePortArg (fun _ => none) "0,80" = none ∧
    parsePortArg (fun _ => none) "80,0" = none :=
  ⟨(c6_zero_ports_rejected (fun _ => none) (fun _ _ => rfl)).1,
   (c6_zero_ports_rejected (fun _ => none) (fun _ _ => rfl)).2.1⟩

/-- C7.  Port parser, local-socket target: for every input
`"VPORT,unix:PATH"` with a valid VPORT, parsing succeeds with the target
port absent (the empty string, Go's encoding of the missing port) and the
target equal to PATH, the remainder after the `unix:` prefix; in
particular `"80,unix:/tmp/s.sock"` yields no target port and target
`"/tmp/s.sock"`. -/
theorem c7_unix_target (resolve : String → Option Nat) :
    parsePortArg resolve "80,unix:/tmp/s.sock" = some ("80", "", "/tmp/s.sock") ∧
    (∀ (vp path : String) (p : Nat), parsePort vp = some p →
      parsePortArg resolve (vp ++ "," ++ "unix:" ++ path) = some (vp, "", path)) := by
  constructor
  · rfl
  · intro vp path p hvp
    have hdata : (vp ++ "," ++ "unix:" ++ path).data =
        vp.data ++ ',' :: ("unix:".data ++ path.data) := by
      simp [string_data_append]
    have hsp : splitFirst ',' (vp ++ "," ++ "unix:" ++ path).data =
        some (vp.data, "unix:".data ++ path.data) := by
      rw [hdata]
      exact splitFirst_append _ (parsePort_no_comma hvp)
    rw [parsePortArg_split hsp]
    have hvp' : parsePort ⟨vp.data⟩ = some p := hvp
    have htg : parsePort ⟨"unix:".data ++ path.data⟩ = none := by
      unfold parsePort parseUint16
      rw [if_neg ?hne, if_neg ?hdig]
      case hne => simp [data_mk]
      case hdig =>
        simp only [data_mk]
        show ¬ (('u' :: ("nix:".data ++ path.data)).all (fun c => c.isDigit) = true)
        simp [List.all_cons, show 'u'.isDigit = false from rfl]
    have hux : "unix:".data.isPrefixOf ("unix:".data ++ path.data) = true :=
      List.isPrefixOf_iff_prefix.mpr (List.prefix_append _ _)
    rw [hvp', htg]
    simp only [hux, if_true]
    rw [show ("unix:".data ++ path.data).drop "unix:".data.length = path.data from
      List.drop_left _ _]

/-- Closed witness for C7 at `"80" ++ "," ++ "unix:" ++ "/tmp/s.sock"`. -/
theorem c7_unix_target_witness :
    parsePortArg (fun _ => none) ("80" ++ "," ++ "unix:" ++ "/tmp/s.sock") =
      some ("80", "", "/tmp/s.sock") :=
  (c7_unix_target (fun _ => none)).2 "80" "/tmp/s.sock" 80 (by decide)

/-- Constant `onionKeyTypeRSA` from main.go line 41: the wire-form type
tag of the one recognized key type. -/
def onionKeyTypeRSA : String := "RSA1024"

/-- Constant `pemKeyTypeRSA` from main.go line 42: the armored (PEM) block
type of the one recognized key type. -/
def pemKeyTypeRSA : String := "RSA PRIVATE KEY"

/-- Character of the standard base64 alphabet at index `n < 64`, as used
by Go `encoding/base64.StdEncoding`. -/
def b64Char (n : Nat) : Char :=
  if n < 26 then Char.ofNat (65 + n)
  else if n < 52 then Char.ofNat (97 + (n - 26))
  else if n < 62 then Char.ofNat (48 + (n - 52))
  else if n = 62 then '+'
  else '/'

/-- Index of a character in the standard base64 alphabet (`none` for a
character outside the alphabet, which Go reports as `CorruptInputError`). -/
def b64Index (c : Char) : Option Nat :=
  if 'A' ≤ c ∧ c ≤ 'Z' then some (c.toNat - 65)
  else if 'a' ≤ c ∧ c ≤ 'z' then some (c.toNat - 97 + 26)
  else if '0' ≤ c ∧ c ≤ '9' then some (c.toNat - 48 + 52)
  else if c = '+' then some 62
  else if c = '/' then some 63
  else none

/-- Model of Go `base64.StdEncoding.EncodeToString` on a byte list
(entries `< 256`): 3-byte groups become 4 alphabet characters, a trailing
1- or 2-byte group is padded with `=`. -/
def b64encode : List Nat → List Char
  | [] => []
  | [b1] => [b64Char (b1 / 4), b64Char (b1 % 4 * 16), '=', '=']
  | [b1, b2] =>
    [b64Char (b1 / 4), b64Char (b1 % 4 * 16 + b2 / 16), b64Char (b2 % 16 * 4), '=']
  | b1 :: b2 :: b3 :: rest =>
    b64Char (b1 / 4) :: b64Char (b1 % 4 * 16 + b2 / 16) ::
      b64Char (b2 % 16 * 4 + b3 / 64) :: b64Char (b3 % 64) :: b64encode rest

/-- Model of Go `base64.StdEncoding.DecodeString`: input must be a
sequence of 4-character quantums; `=` padding is accepted only at the very
end; like Go's default (non-strict) decoder, non-zero trailing bits in a
padded quantum are not rejected.  (Go additionally skips CR/LF characters,
which never arise in the wire strings handled here.) -/
def b64decode : List Char → Option (List Nat)
  | [] => some []
  | c1 :: c2 :: c3 :: c4 :: rest =>
    match b64Index c1, b64Index c2 with
    | some i1, some i2 =>
      if c3 = '=' then
        if c4 = '=' ∧ rest = [] then some [i1 * 4 + i2 / 16] else none
      else
        match b64Index c3 with
        | some i3 =>
          if c4 = '=' then
            if rest = [] then some [i1 * 4 + i2 / 16, i2 % 16 * 16 + i3 / 4] else none
          else
            match b64Index c4, b64decode rest with
            | some i4, some bs =>
              some ((i1 * 4 + i2 / 16) :: (i2 % 16 * 16 + i3 / 4) ::
                (i3 % 4 * 64 + i4) :: bs)
            | _, _ => none
        | none => none
    | _, _ => none
  | _ => none

def b64encodeStr (bs : List Nat) : String := ⟨b64encode bs⟩

def b64decodeStr (s : String) : Option (List Nat) := b64decode s.data

/-- An armored (PEM) block as produced by Go `encoding/pem`: a type tag
and the raw bytes.  Headers are not modelled (the source never sets or
reads them). -/
structure PemBlock where
  type_ : String
  bytes : List Nat
deriving DecidableEq

/-- `loadPrivateKey` from main.go lines 122-139, at the block level: the
file contents are the sequence of armored blocks `pem.Decode` yields; the
loop scans them in order, returns the wire form of the first block whose
type is `RSA PRIVATE KEY`, and fails with "no valid PEM data found" when
none matches (file I/O errors are outside this model). -/
def loadPrivateKey : List PemBlock → Option String
  | [] => none
  | b :: rest =>
    if b.type_ = pemKeyTypeRSA then
      some (onionKeyTypeRSA ++ ":" ++ b64encodeStr b.bytes)
    else loadPrivateKey rest

/-- `savePrivateKey` from main.go lines 141-160, at the block level: the
wire string is split at the first `:`; a missing separator or a type tag
other than `RSA1024` fails, as does a corrupt base64 payload; on success
the file is written containing the single armored block (the `0600`
permissions and the write itself are outside this model). -/
def savePrivateKey (keyStr : String) : Option (List PemBlock) :=
  match splitFirst ':' keyStr.data with
  | none => none
  | some (ty, rest) =>
    if (⟨ty⟩ : String) = onionKeyTypeRSA then
      match b64decodeStr ⟨rest⟩ with
      | none => none
      | some bs => some [⟨pemKeyTypeRSA, bs⟩]
    else none

section Base64Lemmas

theorem b64Index_b64Char : ∀ n < 64, b64Index (b64Char n) = some n := by decide

theorem b64Char_ne_eq : ∀ n < 64, b64Char n ≠ '=' := by decide

theorem b64_roundtrip : ∀ bs : List Nat, (∀ b ∈ bs, b < 256) →
    b64decode (b64encode bs) = some bs
  | [], _ => rfl
  | [b1], h => by
    have hb1 : b1 < 256 := h b1 (by simp)
    have e1 : b64Index (b64Char (b1 / 4)) = some (b1 / 4) :=
      b64Index_b64Char _ (by omega)
    have e2 : b64Index (b64Char (b1 % 4 * 16)) = some (b1 % 4 * 16) :=
      b64Index_b64Char _ (by omega)
    have k1 : b1 / 4 * 4 + b1 % 4 * 16 / 16 = b1 := by omega
    simp [b64encode, b64decode, e1, e2, k1]
    omega
  | [b1, b2], h => by
    have hb1 : b1 < 256 := h b1 (by simp)
    have hb2 : b2 < 256 := h b2 (by simp)
    have e1 : b64Index (b64Char (b1 / 4)) = some (b1 / 4) :=
      b64Index_b64Char _ (by omega)
    have e2 : b64Index (b64Char (b1 % 4 * 16 + b2 / 16)) =
        some (b1 % 4 * 16 + b2 / 16) := b64Index_b64Char _ (by omega)
    have e3 : b64Index (b64Char (b2 % 16 * 4)) = some (b2 % 16 * 4) :=
      b64Index_b64Char _ (by omega)
    have hc3 : b64Char (b2 % 16 * 4) ≠ '=' := b64Char_ne_eq _ (by omega)
    have k1 : b1 / 4 * 4 + (b1 % 4 * 16 + b2 / 16) / 16 = b1 := by omega
    have k2 : (b1 % 4 * 16 + b2 / 16) % 16 * 16 + b2 % 16 * 4 / 4 = b2 := by omega
    simp [b64encode, b64decode, e1, e2, e3, hc3, k1, k2]
    omega
  | b1 :: b2 :: b3 :: rest, h => by
    have hb1 : b1 < 256 := h b1 (by simp)
    have hb2 : b2 < 256 := h b2 (by simp)
    have hb3 : b3 < 256 := h b3 (by simp)
    have ih := b64_roundtrip rest (fun b hb => h b (by simp [hb]))
    have e1 : b64Index (b64Char (b1 / 4)) = some (b1 / 4) :=
      b64Index_b64Char _ (by omega)
    have e2 : b64Index (b64Char (b1 % 4 * 16 + b2 / 16)) =
        some (b1 % 4 * 16 + b2 / 16) := b64Index_b64Char _ (by omega)
    have e3 : b64Index (b64Char (b2 % 16 * 4 + b3 / 64)) =
        some (b2 % 16 * 4 + b3 / 64) := b64Index_b64Char _ (by omega)
    have e4 : b64Index (b64Char (b3 % 64)) = some (b3 % 64) :=
      b64Index_b64Char _ (by omega)
    have hc3 : b64Char (b2 % 16 * 4 + b3 / 64) ≠ '=' := b64Char_ne_eq _ (by omega)
    have hc4 : b64Char (b3 % 64) ≠ '=' := b64Char_ne_eq _ (by omega)
    have k1 : b1 / 4 * 4 + (b1 % 4 * 16 + b2 / 16) / 16 = b1 := by omega
    have k2 : (b1 % 4 * 16 + b2 / 16) % 16 * 16 + (b2 % 16 * 4 + b3 / 64) / 4 = b2 := by
      omega
    have k3 : (b2 % 16 * 4 + b3 / 64) % 4 * 64 + b3 % 64 = b3 := by omega
    match rest with
    | [] => simp [b64encode, b64decode, e1, e2, e3, e4, hc3, hc4, k1, k2, k3]
    | r :: rs =>
      simp only [b64encode] at ih ⊢
      simp [b64decode, e1, e2, e3, e4, hc3, hc4, k1, k2, k3, ih]

end Base64Lemmas

theorem savePrivateKey_wire (bs : List Nat) (h : ∀ b ∈ bs, b < 256) :
    savePrivateKey (onionKeyTypeRSA ++ ":" ++ b64encodeStr bs) =
      some [⟨pemKeyTypeRSA, bs⟩] := by
  have hdata : (onionKeyTypeRSA ++ ":" ++ b64encodeStr bs).data =
      "RSA1024".data ++ ':' :: b64encode bs := by
    simp [string_data_append, onionKeyTypeRSA, b64encodeStr, data_mk]
  have hsp : splitFirst ':' (onionKeyTypeRSA ++ ":" ++ b64encodeStr bs).data =
      some ("RSA1024".data, b64encode bs) := by
    rw [hdata]
    exact splitFirst_append _ (by decide)
  unfold savePrivateKey
  rw [hsp]
  have hdec : b64decodeStr ⟨b64encode bs⟩ = some bs := b64_roundtrip bs h
  simp [hdec, onionKeyTypeRSA]

theorem savePrivateKey_bad_type {k : String} {ty rest : List Char}
    (hsp : splitFirst ':' k.data = some (ty, rest))
    (hty : (⟨ty⟩ : String) ≠ onionKeyTypeRSA) : savePrivateKey k = none := by
  simp [savePrivateKey, hsp, hty]

theorem savePrivateKey_no_sep {k : String}
    (hsp : splitFirst ':' k.data = none) : savePrivateKey k = none := by
  simp [savePrivateKey, hsp]

/-- C3.  Key codec round-trip: saving the wire form of any byte blob of
the recognized `RSA1024` type produces the single armored `RSA PRIVATE
KEY` block, and loading that block back yields the identical wire string
(hence `save (load (save k)) = save k`); a wire string whose type tag (the
part before the first `:`) is not `RSA1024`, or that has no `:` separator
at all, deterministically fails to save. -/
theorem c3_key_roundtrip :
    (∀ bs : List Nat, (∀ b ∈ bs, b < 256) →
      savePrivateKey (onionKeyTypeRSA ++ ":" ++ b64encodeStr bs) =
        some [⟨pemKeyTypeRSA, bs⟩] ∧
      loadPrivateKey [⟨pemKeyTypeRSA, bs⟩] =
        some (onionKeyTypeRSA ++ ":" ++ b64encodeStr bs)) ∧
    (∀ (k : String) (ty rest : List Char), splitFirst ':' k.data = some (ty, rest) →
      (⟨ty⟩ : String) ≠ onionKeyTypeRSA → savePrivateKey k = none) ∧
    (∀ k : String, splitFirst ':' k.data = none → savePrivateKey k = none) := by
  refine ⟨?_, ?_, ?_⟩
  · intro bs h
    exact ⟨savePrivateKey_wire bs h, by simp [loadPrivateKey]⟩
  · intro k ty rest hsp hty
    exact savePrivateKey_bad_type hsp hty
  · intro k hsp
    exact savePrivateKey_no_sep hsp

/-- Closed witness for C3 at the concrete key bytes `[0, 255, 10]`. -/
theorem c3_key_roundtrip_witness :
    savePrivateKey (onionKeyTypeRSA ++ ":" ++ b64encodeStr [0, 255, 10]) =
      some [⟨pemKeyTypeRSA, [0, 255, 10]⟩] ∧
    loadPrivateKey [⟨pemKeyTypeRSA, [0, 255, 10]⟩] =
      some (onionKeyTypeRSA ++ ":" ++ b64encodeStr [0, 255, 10]) :=
  c3_key_roundtrip.1 [0, 255, 10] (by decide)

/-- C10.  The only key type the codec recognizes is RSA1024 (armored
block type `RSA PRIVATE KEY`): loading skips every armored block of any
other type; a successful load always returns a wire string of the form
`RSA1024:<base64 of some RSA-typed block's bytes>`; and a successful save
requires a `:` separator and the type tag `RSA1024` (so every other wire
string is rejected). -/
theorem c10_rsa_only :
    (∀ (b : PemBlock) (rest : List PemBlock), b.type_ ≠ pemKeyTypeRSA →
      loadPrivateKey (b :: rest) = loadPrivateKey rest) ∧
    (∀ (blocks : List PemBlock) (k : String), loadPrivateKey blocks = some k →
      ∃ b ∈ blocks, b.type_ = pemKeyTypeRSA ∧
        k = onionKeyTypeRSA ++ ":" ++ b64encodeStr b.bytes) ∧
    (∀ (k : String) (blocks : List PemBlock), savePrivateKey k = some blocks →
      ∃ ty rest, splitFirst ':' k.data = some (ty, rest) ∧
        (⟨ty⟩ : String) = onionKeyTypeRSA) := by
  refine ⟨?_, ?_, ?_⟩
  · intro b rest hb
    simp [loadPrivateKey, hb]
  · intro blocks
    induction blocks with
    | nil =>
      intro k hk
      exact absurd hk (by simp [loadPrivateKey])
    | cons b rest ih =>
      intro k hk
      by_cases hb : b.type_ = pemKeyTypeRSA
      · refine ⟨b, List.mem_cons_self b rest, hb, ?_⟩
        simp [loadPrivateKey, hb] at hk
        exact hk.symm
      · simp only [loadPrivateKey, if_neg hb] at hk
        obtain ⟨b2, hmem, hty, hk2⟩ := ih k hk
        exact ⟨b2, List.mem_cons_of_mem b hmem, hty, hk2⟩
  · intro k blocks hk
    cases hsp : splitFirst ':' k.data with
    | none =>
      rw [savePrivateKey_no_sep hsp] at hk
      exact Option.noConfusion hk
    | some p =>
      obtain ⟨ty, rest⟩ := p
      refine ⟨ty, rest, rfl, ?_⟩
      by_cases hty : (⟨ty⟩ : String) = onionKeyTypeRSA
      · exact hty
      · rw [savePrivateKey_bad_type hsp hty] at hk
        exact Option.noConfusion hk

/-- Closed witness for C10: a block of type `CERTIFICATE` is skipped, so a
file holding only it fails to load. -/
theorem c10_rsa_only_witness :
    loadPrivateKey [⟨"CERTIFICATE", [1]⟩] = loadPrivateKey [] ∧
    loadPrivateKey [⟨"CERTIFICATE", [1]⟩] = none :=
  ⟨c10_rsa_only.1 ⟨"CERTIFICATE", [1]⟩ [] (by decide),
   by rw [c10_rsa_only.1 ⟨"CERTIFICATE", [1]⟩ [] (by decide)]; rfl⟩

/-- Fuel-driven core of Go `strings.Replace (s, pat, rep, -1)` on
character lists: scan left to right, and at each position where `pat` is a
prefix emit `rep` and continue after the matched occurrence.  The fuel is
instantiated with the length of `s`, which suffices because every step
consumes at least one character.  (Go's special behaviour for an empty
`pat` — inserting `rep` between characters — is not modelled; the program
only ever substitutes the nonempty literals `%VPORT`, `%TPORT`,
`%TADDR`.) -/
def replaceAllAux (fuel : Nat) (s pat rep : List Char) : List Char :=
  match fuel, s with
  | 0, s => s
  | _ + 1, [] => []
  | fuel + 1, c :: rest =>
    if pat ≠ [] ∧ pat.isPrefixOf (c :: rest) then
      rep ++ replaceAllAux fuel ((c :: rest).drop pat.length) pat rep
    else
      c :: replaceAllAux fuel rest pat rep

/-- Model of Go `strings.Replace (v, pat, rep, -1)`: replace every
non-overlapping occurrence of `pat` in `v`, left to right. -/
def goReplace (v pat rep : String) : String :=
  ⟨replaceAllAux v.data.length v.data pat.data rep.data⟩

/-- One iteration of the rewriting loop in main.go lines 218-227: in
argument `v`, `%VPORT` is replaced with the virtual port, `%TPORT` with
the target port only when one exists (AF_UNIX targets have none, encoded
as the empty string), and `%TADDR` with the entire target. -/
def rewriteArg (virtPort targetPort target v : String) : String :=
  goReplace
    (if targetPort = "" then goReplace v "%VPORT" virtPort
     else goReplace (goReplace v "%VPORT" virtPort) "%TPORT" targetPort)
    "%TADDR" target

/-- The rewriting loop of main.go lines 218-227: every argument of
`cmd.Args` from index 1 on is rewritten; `cmd.Args[0]` (the command name)
is never touched. -/
def rewriteArgs (args : List String) (virtPort targetPort target : String) :
    List String :=
  match args with
  | [] => []
  | a0 :: rest => a0 :: rest.map (rewriteArg virtPort targetPort target)

/-- C1.  Argument rewriting: every argument after argv[0] has all
occurrences of `%VPORT` and `%TADDR` replaced with the virtual port and
target, and `%TPORT` replaced with the target port exactly when a target
port exists; argv[0] is never touched; with a local-socket target (empty
target port) `%TPORT` occurrences are left unsubstituted.  On the spec's
example argv with spec `(80, 8080, "127.0.0.1:8080")` the rewritten argv
is `["-p", "80", "-t=8080", "127.0.0.1:8080"]`. -/
theorem c1_argument_rewriting :
    rewriteArgs ["-p", "%VPORT", "-t=%TPORT", "%TADDR"] "80" "8080" "127.0.0.1:8080"
      = ["-p", "80", "-t=8080", "127.0.0.1:8080"] ∧
    rewriteArgs ["cmd", "-t=%TPORT"] "80" "" "/tmp/s.sock" = ["cmd", "-t=%TPORT"] ∧
    rewriteArgs ["%VPORT"] "80" "8080" "127.0.0.1:8080" = ["%VPORT"] ∧
    (∀ (a0 : String) (rest : List String) (vp tp tg : String),
      rewriteArgs (a0 :: rest) vp tp tg = a0 :: rest.map (rewriteArg vp tp tg)) ∧
    (∀ vp tg v : String,
      rewriteArg vp "" tg v = goReplace (goReplace v "%VPORT" vp) "%TADDR" tg) ∧
    (∀ vp tp tg v : String, tp ≠ "" →
      rewriteArg vp tp tg v =
        goReplace (goReplace (goReplace v "%VPORT" vp) "%TPORT" tp) "%TADDR" tg) := by
  refine ⟨by decide, by decide, by decide, fun a0 rest vp tp tg => rfl, ?_, ?_⟩
  · intro vp tg v
    simp [rewriteArg]
  · intro vp tp tg v htp
    simp [rewriteArg, htp]

/-- Closed witness for C1: the `%TPORT` stage applies at the concrete
nonempty target port `"8080"`. -/
theorem c1_argument_rewriting_witness :
    rewriteArg "80" "8080" "127.0.0.1:8080" "-t=%TPORT" =
      goReplace (goReplace (goReplace "-t=%TPORT" "%VPORT" "80") "%TPORT" "8080")
        "%TADDR" "127.0.0.1:8080" ∧
    rewriteArg "80" "8080" "127.0.0.1:8080" "-t=%TPORT" = "-t=8080" :=
  ⟨c1_argument_rewriting.2.2.2.2.2 "80" "8080" "127.0.0.1:8080" "-t=%TPORT"
    (by decide), by decide⟩

/-- The line tag of the service identifier in an ADD_ONION reply
(main.go line 286). -/
def serviceIDLinePfx : String := "ServiceID="

/-- The line tag of the generated private key in an ADD_ONION reply
(main.go line 287). -/
def privateKeyLinePfx : String := "PrivateKey="

/-- The two fatal outcomes of parsing the ADD_ONION reply body.  Both are
`errorf` calls in the source (main.go lines 294 and 305), i.e. a
diagnostic followed by process exit — a daemon outside the documented
protocol, never silent success. -/
inductive CreateError
  | unexpectedKey
  | missingServiceID
deriving DecidableEq

/-- The response-scanning loop of main.go lines 283-306, with its two
mutable locals made explicit: `serviceID` (initially `""`) and `hsKeyStr`
(non-empty exactly when the caller supplied a key).  Each `ServiceID=`
line overwrites `serviceID`; a `PrivateKey=` line is fatal unless
key generation was requested (`generatePK`) and no key is held yet,
otherwise it is recorded; after the loop, an empty `serviceID` is fatal.
(The `savePrivateKey` call on the recorded key is file I/O handled by the
key-codec model.) -/
def scanAddOnionResponse (generatePK : Bool) :
    List String → String → String → Except CreateError (String × String)
  | [], serviceID, hsKeyStr =>
    if serviceID = "" then .error .missingServiceID else .ok (serviceID, hsKeyStr)
  | l :: rest, serviceID, hsKeyStr =>
    if serviceIDLinePfx.data.isPrefixOf l.data then
      scanAddOnionResponse generatePK rest
        ⟨l.data.drop serviceIDLinePfx.data.length⟩ hsKeyStr
    else if privateKeyLinePfx.data.isPrefixOf l.data then
      if generatePK = false ∨ hsKeyStr ≠ "" then .error .unexpectedKey
      else
        scanAddOnionResponse generatePK rest serviceID
          ⟨l.data.drop privateKeyLinePfx.data.length⟩
    else scanAddOnionResponse generatePK rest serviceID hsKeyStr

theorem not_both_line_pfx (l : String)
    (h1 : serviceIDLinePfx.data.isPrefixOf l.data = true)
    (h2 : privateKeyLinePfx.data.isPrefixOf l.data = true) : False := by
  cases hl : l.data with
  | nil =>
    rw [hl] at h1
    exact absurd h1 (by decide)
  | cons c cs =>
    rw [hl] at h1 h2
    rw [show serviceIDLinePfx.data = 'S' :: "erviceID=".data from rfl] at h1
    rw [show privateKeyLinePfx.data = 'P' :: "rivateKey=".data from rfl] at h2
    simp only [List.isPrefixOf, Bool.and_eq_true, beq_iff_eq] at h1 h2
    have : ('S' : Char) = 'P' := h1.1.trans h2.1.symm
    exact absurd this (by decide)

theorem scan_noServiceID (gen : Bool) :
    ∀ (data : List String) (key : String),
      (∀ l ∈ data, serviceIDLinePfx.data.isPrefixOf l.data = false) →
      ∃ e, scanAddOnionResponse gen data "" key = .error e := by
  intro data
  induction data with
  | nil => exact fun key _ => ⟨.missingServiceID, rfl⟩
  | cons l rest ih =>
    intro key h
    have hl : ¬ serviceIDLinePfx.data.isPrefixOf l.data = true := by
      rw [h l (List.mem_cons_self l rest)]
      exact Bool.false_ne_true
    have hrest := fun x hx => h x (List.mem_cons_of_mem l hx)
    by_cases hp : privateKeyLinePfx.data.isPrefixOf l.data = true
    · by_cases hc : gen = false ∨ key ≠ ""
      · refine ⟨.unexpectedKey, ?_⟩
        unfold scanAddOnionResponse
        rw [if_neg hl, if_pos hp, if_pos hc]
      · obtain ⟨e, he⟩ := ih ⟨l.data.drop privateKeyLinePfx.data.length⟩ hrest
        refine ⟨e, ?_⟩
        unfold scanAddOnionResponse
        rw [if_neg hl, if_pos hp, if_neg hc]
        exact he
    · obtain ⟨e, he⟩ := ih key hrest
      refine ⟨e, ?_⟩
      unfold scanAddOnionResponse
      rw [if_neg hl, if_neg hp]
      exact he

theorem scan_unexpectedKey (gen : Bool) :
    ∀ (data : List String) (sid key : String),
      (gen = false ∨ key ≠ "") →
      (∃ l ∈ data, privateKeyLinePfx.data.isPrefixOf l.data = true) →
      scanAddOnionResponse gen data sid key = .error .unexpectedKey := by
  intro data
  induction data with
  | nil =>
    intro sid key hcond hex
    obtain ⟨l, hl, _⟩ := hex
    exact absurd hl (List.not_mem_nil l)
  | cons l rest ih =>
    intro sid key hcond hex
    by_cases hs : serviceIDLinePfx.data.isPrefixOf l.data = true
    · have hex2 : ∃ l2 ∈ rest, privateKeyLinePfx.data.isPrefixOf l2.data = true := by
        obtain ⟨l2, hmem, hpfx⟩ := hex
        cases List.mem_cons.mp hmem with
        | inl heq =>
          subst heq
          exact (not_both_line_pfx l2 hs hpfx).elim
        | inr hmem2 => exact ⟨l2, hmem2, hpfx⟩
      unfold scanAddOnionResponse
      rw [if_pos hs]
      exact ih _ _ hcond hex2
    · by_cases hp : privateKeyLinePfx.data.isPrefixOf l.data = true
      · unfold scanAddOnionResponse
        rw [if_neg hs, if_pos hp, if_pos hcond]
      · have hex2 : ∃ l2 ∈ rest, privateKeyLinePfx.data.isPrefixOf l2.data = true := by
          obtain ⟨l2, hmem, hpfx⟩ := hex
          cases List.mem_cons.mp hmem with
          | inl heq =>
            subst heq
            exact absurd hpfx hp
          | inr hmem2 => exact ⟨l2, hmem2, hpfx⟩
        unfold scanAddOnionResponse
        rw [if_neg hs, if_neg hp]
        exact ih _ _ hcond hex2

/-- C2.  Service-creation response parsing: for every reply body, if no
line carries the `ServiceID=` tag the scan ends in a fatal error (never
silent success); and if key generation was not requested (flag unset, or a
key was supplied by the caller) then any `PrivateKey=` line makes the scan
end in the fatal "received a private key when we should not have"
error. -/
theorem c2_response_parsing (gen : Bool) (key0 : String) (data : List String) :
    ((∀ l ∈ data, serviceIDLinePfx.data.isPrefixOf l.data = false) →
      ∃ e, scanAddOnionResponse gen data "" key0 = .error e) ∧
    ((gen = false ∨ key0 ≠ "") →
      (∃ l ∈ data, privateKeyLinePfx.data.isPrefixOf l.data = true) →
      scanAddOnionResponse gen data "" key0 = .error .unexpectedKey) :=
  ⟨scan_noServiceID gen data key0, scan_unexpectedKey gen data "" key0⟩

/-- Closed witness for C2: a reply without `ServiceID=` fails, and an
unrequested `PrivateKey=` line fails even when a `ServiceID=` line is
present. -/
theorem c2_response_parsing_witness :
    (∃ e, scanAddOnionResponse false ["250 OK"] "" "" = .error e) ∧
    scanAddOnionResponse false ["ServiceID=abc", "PrivateKey=xyz"] "" "" =
      .error .unexpectedKey :=
  ⟨(c2_response_parsing false "" ["250 OK"]).1 (by decide),
   (c2_response_parsing false "" ["ServiceID=abc", "PrivateKey=xyz"]).2
     (Or.inl rfl) (by decide)⟩

/-- Constant `sigKillDelay = 5 * time.Second` from main.go line 39,
measured in seconds. -/
def sigKillDelaySeconds : Nat := 5

/-- Observable events of the supervisor's signal path (main.go lines
344-358). -/
inductive SupEvent
  | forwardSignal (sig : Nat)
  | childExit
  | killChild
  | exitFailure
deriving DecidableEq

/-- Discrete-event model of the supervisor after an external signal `sig`
arrives (main.go lines 344-358): the same signal is forwarded to the child
immediately (time 0), then the code selects between the child's exit
(`exitTime`, measured from the forward; `none` if the child never exits on
its own) and a `time.After (sigKillDelay)` timer.  A child exit within the
grace period is followed by the final unconditional kill of the
already-exited child; otherwise the timer fires at the grace period, the
child is force-killed and the process exits with failure.  The list order
is the order in which the events happen. -/
def signalTrace (sig : Nat) (exitTime : Option Nat) : List (Nat × SupEvent) :=
  (0, .forwardSignal sig) ::
    match exitTime with
    | some t =>
      if t < sigKillDelaySeconds then [(t, .childExit), (t, .killChild)]
      else [(sigKillDelaySeconds, .killChild), (sigKillDelaySeconds, .exitFailure)]
    | none => [(sigKillDelaySeconds, .killChild), (sigKillDelaySeconds, .exitFailure)]

/-- C4.  Signal escalation: the externally received signal is itself the
first thing forwarded to the child; the child is never killed before it
has exited or the 5-second grace period has elapsed; a child exiting
promptly (before the grace period) is killed only after its own exit and
no failure is reported from the signal path; and a child that has not
exited by the grace period is force-killed exactly at the grace period
with the process reporting failure. -/
theorem c4_signal_escalation (sig : Nat) (exitTime : Option Nat) :
    (signalTrace sig exitTime).head? = some (0, SupEvent.forwardSignal sig) ∧
    (∀ t : Nat, (t, SupEvent.killChild) ∈ signalTrace sig exitTime →
      sigKillDelaySeconds ≤ t ∨
        ∃ u ≤ t, (u, SupEvent.childExit) ∈ signalTrace sig exitTime) ∧
    (∀ t : Nat, exitTime = some t → t < sigKillDelaySeconds →
      signalTrace sig exitTime =
        [(0, SupEvent.forwardSignal sig), (t, SupEvent.childExit),
         (t, SupEvent.killChild)]) ∧
    ((exitTime = none ∨ ∃ t, exitTime = some t ∧ sigKillDelaySeconds ≤ t) →
      signalTrace sig exitTime =
        [(0, SupEvent.forwardSignal sig),
         (sigKillDelaySeconds, SupEvent.killChild),
         (sigKillDelaySeconds, SupEvent.exitFailure)]) := by
  refine ⟨?_, ?_, ?_, ?_⟩
  · cases exitTime <;> rfl
  · intro t hmem
    cases exitTime with
    | none =>
      simp [signalTrace] at hmem
      exact Or.inl (le_of_eq hmem.symm)
    | some t0 =>
      by_cases hlt : t0 < sigKillDelaySeconds
      · simp [signalTrace, hlt] at hmem
        exact Or.inr ⟨t0, le_of_eq hmem.symm, by simp [signalTrace, hlt]⟩
      · simp [signalTrace, hlt] at hmem
        exact Or.inl (le_of_eq hmem.symm)
  · intro t hexit hlt
    subst hexit
    simp [signalTrace, hlt]
  · intro h
    cases exitTime with
    | none => simp [signalTrace]
    | some t0 =>
      cases h with
      | inl hnone => exact Option.noConfusion hnone
      | inr hex =>
        obtain ⟨t, heq, hge⟩ := hex
        have ht : t0 = t := Option.some.injEq t0 t ▸ heq.symm ▸ rfl
        subst ht
        simp [signalTrace, Nat.not_lt.mpr hge]

/-- Closed witness for C4: a child that exits 1 second after SIGTERM (15)
is forwarded is reaped without any premature kill, and a child that never
exits is force-killed at the 5-second mark with failure reported. -/
theorem c4_signal_escalation_witness :
    signalTrace 15 (some 1) =
      [(0, SupEvent.forwardSignal 15), (1, SupEvent.childExit),
       (1, SupEvent.killChild)] ∧
    signalTrace 15 none =
      [(0, SupEvent.forwardSignal 15),
       (sigKillDelaySeconds, SupEvent.killChild),
       (sigKillDelaySeconds, SupEvent.exitFailure)] :=
  ⟨(c4_signal_escalation 15 (some 1)).2.2.1 1 rfl (by decide),
   (c4_signal_escalation 15 none).2.2.2 (Or.inl rfl)⟩

/-- Observable events of one inetd connection handler (inetd.go lines
37-82). -/
inductive InetdEvent
  | pumpDone (pump : Nat)
  | killWorker
  | reapWorker
  | closeConn
deriving DecidableEq

/-- Discrete-event model of `onInetdConn` (inetd.go lines 37-82): the two
byte-copy pumps (`copyLoop` on conn→stdin and stdout→conn) finish at times
`t1` and `t2`; `wg.Wait()` returns at `max t1 t2`, after which the handler
force-kills the worker (`cmd.Process.Kill`), reaps it (`cmd.Wait`), and
closes the connection (the deferred `conn.Close`), in that order.  The
list order is the order in which the events happen. -/
def inetdConnTrace (t1 t2 : Nat) : List (Nat × InetdEvent) :=
  (if t1 ≤ t2 then [(t1, .pumpDone 1), (t2, .pumpDone 2)]
   else [(t2, .pumpDone 2), (t1, .pumpDone 1)]) ++
  [(max t1 t2, .killWorker), (max t1 t2, .reapWorker), (max t1 t2, .closeConn)]

/-- C8.  Inetd connection-handler ordering: whatever the two pump
completion times are, the handler's trace is both pump completions
followed by kill, then reap, then close of the connection, all at the time
the later pump finishes — so the worker is never force-killed while either
pump is still running, and the connection is closed only after the worker
has been reaped. -/
theorem c8_inetd_conn_ordering (t1 t2 : Nat) :
    ∃ pre : List (Nat × InetdEvent),
      inetdConnTrace t1 t2 =
        pre ++ [(max t1 t2, InetdEvent.killWorker),
                (max t1 t2, InetdEvent.reapWorker),
                (max t1 t2, InetdEvent.closeConn)] ∧
      (t1, InetdEvent.pumpDone 1) ∈ pre ∧
      (t2, InetdEvent.pumpDone 2) ∈ pre ∧
      (∀ (t : Nat) (e : InetdEvent), (t, e) ∈ pre →
        (∃ p, e = InetdEvent.pumpDone p) ∧ t ≤ max t1 t2) := by
  by_cases h : t1 ≤ t2
  · refine ⟨[(t1, .pumpDone 1), (t2, .pumpDone 2)], ?_, by simp, by simp, ?_⟩
    · simp [inetdConnTrace, h]
    · intro t e hmem
      simp only [List.mem_cons, List.not_mem_nil, or_false] at hmem
      cases hmem with
      | inl h1 =>
        rw [Prod.mk.injEq] at h1
        exact ⟨⟨1, h1.2⟩, by rw [h1.1]; exact le_max_left t1 t2⟩
      | inr h2 =>
        rw [Prod.mk.injEq] at h2
        exact ⟨⟨2, h2.2⟩, by rw [h2.1]; exact le_max_right t1 t2⟩
  · refine ⟨[(t2, .pumpDone 2), (t1, .pumpDone 1)], ?_, by simp, by simp, ?_⟩
    · simp [inetdConnTrace, h]
    · intro t e hmem
      simp only [List.mem_cons, List.not_mem_nil, or_false] at hmem
      cases hmem with
      | inl h1 =>
        rw [Prod.mk.injEq] at h1
        exact ⟨⟨2, h1.2⟩, by rw [h1.1]; exact le_max_right t1 t2⟩
      | inr h2 =>
        rw [Prod.mk.injEq] at h2
        exact ⟨⟨1, h2.2⟩, by rw [h2.1]; exact le_max_left t1 t2⟩

/-- Closed witness for C8 at pump completion times 3 and 1, with the trace
evaluated explicitly. -/
theorem c8_inetd_conn_ordering_witness :
    (∃ pre : List (Nat × InetdEvent),
      inetdConnTrace 3 1 =
        pre ++ [(max 3 1, InetdEvent.killWorker),
                (max 3 1, InetdEvent.reapWorker),
                (max 3 1, InetdEvent.closeConn)] ∧
      ((3 : Nat), InetdEvent.pumpDone 1) ∈ pre ∧
      ((1 : Nat), InetdEvent.pumpDone 2) ∈ pre ∧
      (∀ (t : Nat) (e : InetdEvent), (t, e) ∈ pre →
        (∃ p, e = InetdEvent.pumpDone p) ∧ t ≤ max 3 1)) ∧
    inetdConnTrace 3 1 =
      [(1, InetdEvent.pumpDone 2), (3, InetdEvent.pumpDone 1),
       (3, InetdEvent.killWorker), (3, InetdEvent.reapWorker),
       (3, InetdEvent.closeConn)] :=
  ⟨c8_inetd_conn_ordering 3 1, by decide⟩

/-- The outcome of one `l.Accept()` call in the accept loop, as the
source case-splits on it: a connection, or an error that is (or is not) a
`net.Error` and is (or is not) `Temporary()`. -/
inductive AcceptResult
  | conn
  | err (isNetError : Bool) (temporary : Bool)
deriving DecidableEq

/-- What one iteration of the accept loop does next; `logLines` counts the
log lines the iteration emits (`fatal` is `errorf`: one diagnostic line,
then process exit). -/
inductive StepOutcome
  | handleConn
  | skip (logLines : Nat)
  | fatal (logLines : Nat)
deriving DecidableEq

/-- One iteration of the accept loop of `runInetd` (inetd.go lines 24-34):
a successful accept spawns a connection handler; an error that is a
non-temporary `net.Error` is fatal via `errorf` (one diagnostic line, then
exit); every other error — including a temporary one — just `continue`s
the loop, emitting no log line at all. -/
def acceptStep : AcceptResult → StepOutcome
  | .conn => .handleConn
  | .err isNet temp => if isNet && !temp then .fatal 1 else .skip 0

/-- Counterexample to C9 as stated: a transient (temporary) accept error
makes the loop continue having emitted zero log lines — it is not
logged. -/
theorem c9_accept_loop_counterexample :
    acceptStep (AcceptResult.err true true) = StepOutcome.skip 0 := by decide

/-- C9 (amended).  Inetd accept-loop error policy: a transient (temporary)
accept error causes the loop to continue with the next iteration — without
emitting any log line — while a non-transient `net.Error` is fatal and
terminates the whole process with one diagnostic; an error that is not a
`net.Error` also continues the loop silently. -/
theorem c9_accept_loop_amended :
    acceptStep AcceptResult.conn = StepOutcome.handleConn ∧
    acceptStep (AcceptResult.err true true) = StepOutcome.skip 0 ∧
    acceptStep (AcceptResult.err true false) = StepOutcome.fatal 1 ∧
    (∀ temp : Bool, acceptStep (AcceptResult.err false temp) = StepOutcome.skip 0) := by
  refine ⟨rfl, rfl, rfl, ?_⟩
  intro temp
  cases temp <;> rfl

end Onionwrap
